import Mathlib

/-!
Shallow embedding of the n-back training core (sequence generator, scorer,
trial engine) of the `rrogerc/n-back` repository, together with theorems
settling the specification claims about it.

Randomness: the JavaScript source draws from `Math.random()`.  Every random
draw is modelled by reading the next value of an oracle tape `g : Nat → Nat`
(reduced modulo the needed bound), threading an explicit tape position.

JavaScript arrays are modelled as `List (Option Char)`: `none` stands for
the `null` used by `new Array(totalTrials).fill(null)` (and for `undefined`
on out-of-bounds reads), `some c` for a letter string.
-/

/-- src/utils/constants.js: the 8-letter alphabet `LETTERS`. -/
def LETTERS : List Char := ['C', 'H', 'K', 'L', 'Q', 'R', 'S', 'T']

/-- src/utils/constants.js: `TIMING.ISI` (ms). -/
def TIMING_ISI : Nat := 3000

/-- src/utils/constants.js: `TIMING.RESPONSE_WINDOW` (ms). -/
def TIMING_RESPONSE_WINDOW : Nat := 2500

/-- src/utils/constants.js: `ADAPTIVE.INCREASE_THRESHOLD`. -/
def INCREASE_THRESHOLD : ℚ := 85/100

/-- src/utils/constants.js: `ADAPTIVE.DECREASE_THRESHOLD`. -/
def DECREASE_THRESHOLD : ℚ := 70/100

/-- src/utils/constants.js: `ADAPTIVE.MIN_N`. -/
def MIN_N : ℤ := 1

/-- src/utils/constants.js: `ADAPTIVE.MAX_N`. -/
def MAX_N : ℤ := 9

/-- JavaScript `Math.round` on a (real-valued) argument: round half toward
positive infinity, i.e. `⌊q + 1/2⌋`. -/
def jsRound (q : ℚ) : ℤ := ⌊q + 1/2⌋

/-- Number of guaranteed match positions actually selected by
`generateSequence` (src/game/sequence-generator.js lines 17-31).

With an actual rational `matchRate` this is
`Math.max(1, Math.round(maxPossibleMatches * matchRate))` and the selection
loop copies that many shuffled eligible positions.

`none` models the default argument `BLOCK.MATCH_RATE`: `constants.js`
defines no `MATCH_RATE` field on `BLOCK`, so the default is `undefined`;
then `maxPossibleMatches * undefined` is `NaN`, `Math.round(NaN)` is `NaN`,
`Math.max(1, NaN)` is `NaN`, and the selection loop guard
`i < actualGuaranteedMatches` (`0 < NaN`) is false, so zero positions are
selected. -/
def matchCount (maxPossibleMatches : Nat) : Option ℚ → Nat
  | some r => (max 1 (jsRound ((maxPossibleMatches : ℚ) * r))).toNat
  | none => 0

/-- JavaScript destructuring swap `[a[i], a[j]] = [a[j], a[i]]`: both reads
happen before both writes. -/
def swapL (l : List Nat) (i j : Nat) : List Nat :=
  (l.set i (l.getD j 0)).set j (l.getD i 0)

/-- Body of the Fisher-Yates loop of `shuffleArray`
(src/game/sequence-generator.js lines 80-85): for `i` from `len-1` down
to `1`, swap position `i` with `j = Math.floor(Math.random() * (i+1))`.
`k` is the oracle-tape position. -/
def shuffleGo (g : Nat → Nat) : Nat → Nat → List Nat → List Nat × Nat
  | k, 0, l => (l, k)
  | k, i+1, l => shuffleGo g (k+1) i (swapL l (i+1) (g k % (i+2)))

/-- `shuffleArray(array)` from src/game/sequence-generator.js. -/
def shuffleArray (g : Nat → Nat) (k : Nat) (l : List Nat) : List Nat × Nat :=
  shuffleGo g k (l.length - 1) l

/-- `randomLetter()` (src/game/sequence-generator.js lines 62-64):
`LETTERS[Math.floor(Math.random() * LETTERS.length)]`, reading tape
position `k`. -/
def randomLetter (g : Nat → Nat) (k : Nat) : Option Char :=
  LETTERS[(g k) % LETTERS.length]?

/-- The filtered list `LETTERS.filter(l => l !== excludeLetter)` built by
`randomNonMatchingLetter` (src/game/sequence-generator.js line 72). -/
def nonMatchCandidates (ex : Option Char) : List Char :=
  LETTERS.filter (fun l => decide (some l ≠ ex))

/-- `randomNonMatchingLetter(excludeLetter)` (src/game/sequence-generator.js
lines 71-74): a uniform element of the alphabet minus the excluded value. -/
def randomNonMatchingLetter (g : Nat → Nat) (k : Nat) (ex : Option Char) :
    Option Char :=
  (nonMatchCandidates ex)[(g k) % (nonMatchCandidates ex).length]?

/-- Loop body for step 2 of `generateSequence` (lines 34-37): fill positions
`0..n-1` with `randomLetter()`.
The loop `for (i = i0; i < n; i++)` runs exactly `n - i0` times; that
iteration count is the structural fuel `r`. -/
def fillFirstGo (g : Nat → Nat) : Nat → Nat → Nat → List (Option Char) →
    List (Option Char) × Nat
  | 0, _, k, letters => (letters, k)
  | r+1, i, k, letters =>
      fillFirstGo g r (i+1) (k+1) (letters.set i (randomLetter g k))

/-- Step 2 of `generateSequence`: fill positions `i..n-1` with random
letters. -/
def fillFirst (g : Nat → Nat) (n i k : Nat) (letters : List (Option Char)) :
    List (Option Char) × Nat :=
  fillFirstGo g (n - i) i k letters

/-- Loop body for step 3 of `generateSequence` (lines 39-48): for `i` from
`n` to `totalTrials - 1`, copy `letters[i-n]` at match positions and
otherwise draw `randomNonMatchingLetter(letters[i-n])`, i.e. a uniform
element of `LETTERS.filter(l => l !== letters[i-n])`.  The loop
`for (i = i0; i < total; i++)` runs exactly `total - i0` times; that
iteration count is the structural fuel `r`. -/
def fillRestGo (g : Nat → Nat) (mp : List Nat) (n : Nat) :
    Nat → Nat → Nat → List (Option Char) → List (Option Char) × Nat
  | 0, _, k, letters => (letters, k)
  | r+1, i, k, letters =>
      if mp.contains i then
        fillRestGo g mp n r (i+1) k (letters.set i (letters.getD (i-n) none))
      else
        fillRestGo g mp n r (i+1) (k+1)
          (letters.set i (randomNonMatchingLetter g k (letters.getD (i-n) none)))

/-- Step 3 of `generateSequence`: fill positions `i..total-1`. -/
def fillRest (g : Nat → Nat) (mp : List Nat) (n total i k : Nat)
    (letters : List (Option Char)) : List (Option Char) × Nat :=
  fillRestGo g mp n (total - i) i k letters

/-- The record returned by `generateSequence`:
`{ letters, matchPositions, n, totalTrials }`. -/
structure JSSequence where
  letters : List (Option Char)
  matchPositions : List Nat
  n : Nat
  totalTrials : Nat
deriving DecidableEq

/-- The body of `generateSequence` after the guaranteed-match count has been
computed (src/game/sequence-generator.js lines 12-56, with the count of
lines 17-19 factored out as the parameter `count`; see `generateSequence`). -/
def generateSequenceCore (n totalTrials count : Nat) (g : Nat → Nat) : JSSequence :=
  let total := max totalTrials (n + 1)
  let maxPossibleMatches := total - n
  let possible := List.range' n maxPossibleMatches
  let sh := shuffleArray g 0 possible
  let mp := List.insertionSort (· ≤ ·) (sh.1.take count)
  let letters0 := List.replicate total (none : Option Char)
  let f1 := fillFirst g n 0 sh.2 letters0
  let f2 := fillRest g mp n total n f1.2 f1.1
  ⟨f2.1, mp, n, total⟩

/-- `generateSequence(n, totalTrials, matchRate)` from
src/game/sequence-generator.js.  `matchRate = none` models the call with the
argument omitted (the default `BLOCK.MATCH_RATE`, which is `undefined` in
`constants.js`; see `matchCount`). -/
def generateSequence (n : Nat) (totalTrials : Nat) (matchRate : Option ℚ)
    (g : Nat → Nat) : JSSequence :=
  generateSequenceCore n totalTrials (matchCount (max totalTrials (n+1) - n) matchRate) g

/-- Counter state of the `Scorer` class (src/game/scorer.js). -/
structure ScorerState where
  hits : Nat
  misses : Nat
  falseAlarms : Nat
  correctRejections : Nat
  totalMatches : Nat
  totalNonMatches : Nat
deriving DecidableEq

/-- The zeroed counter state established by `Scorer.reset()`. -/
def scorerZero : ScorerState := ⟨0, 0, 0, 0, 0, 0⟩

/-- `Scorer.reset()` (src/game/scorer.js lines 64-71): sets every counter
to zero, regardless of the previous state. -/
def ScorerState.reset (_s : ScorerState) : ScorerState := scorerZero

/-- `Scorer.recordTrial(userPressed, wasMatch)` (src/game/scorer.js
lines 16-32). -/
def ScorerState.recordTrial (s : ScorerState) (userPressed wasMatch : Bool) :
    ScorerState :=
  if wasMatch then
    if userPressed then
      { s with totalMatches := s.totalMatches + 1, hits := s.hits + 1 }
    else
      { s with totalMatches := s.totalMatches + 1, misses := s.misses + 1 }
  else
    if userPressed then
      { s with totalNonMatches := s.totalNonMatches + 1,
               falseAlarms := s.falseAlarms + 1 }
    else
      { s with totalNonMatches := s.totalNonMatches + 1,
               correctRejections := s.correctRejections + 1 }

/-- The record returned by `Scorer.getResults()`. -/
structure BlockResult where
  hits : Nat
  misses : Nat
  falseAlarms : Nat
  correctRejections : Nat
  accuracy : ℚ
  hitRate : ℚ
  correctRejectionRate : ℚ
deriving DecidableEq

/-- `Scorer.getResults()` (src/game/scorer.js lines 38-59). -/
def ScorerState.getResults (s : ScorerState) : BlockResult :=
  let hitRate : ℚ := if s.totalMatches > 0 then (s.hits : ℚ) / s.totalMatches else 0
  let correctRejectionRate : ℚ :=
    if s.totalNonMatches > 0 then (s.correctRejections : ℚ) / s.totalNonMatches else 0
  let accuracy := (hitRate + correctRejectionRate) / 2
  ⟨s.hits, s.misses, s.falseAlarms, s.correctRejections,
    accuracy, hitRate, correctRejectionRate⟩

/-- `calculateNextLevel(currentN, accuracy)` (src/game/scorer.js
lines 80-87). -/
def calculateNextLevel (currentN : ℤ) (accuracy : ℚ) : ℤ :=
  if accuracy ≥ INCREASE_THRESHOLD then min (currentN + 1) MAX_N
  else if accuracy < DECREASE_THRESHOLD then max (currentN - 1) MIN_N
  else currentN

/-! The trial engine (`GameEngine`, src/game/game-engine.js).

`startBlock` is an `async` method of a single-threaded event loop: between
two `await`s its code runs atomically, and the externally invoked handlers
(`_onPress`, `pause`, `resume`, `stop`) run atomically at those suspension
points.  We model this as a labelled transition system: a configuration
records the engine fields, the accumulated trace of dispatched events, the
resolution value of the pending `startBlock` promise, and a program counter
naming the suspension point the block loop is parked at.  A `Label.tick`
fires the timer the loop is awaiting (response window, ISI remainder,
pause poll, or pre-level-up delay); the other labels deliver an external
press/pause/resume/stop.  Audio playback is fire-and-forget in the source
and is not modelled. -/

/-- Engine state field (`this.state`). -/
inductive EngState
  | idle
  | playing
  | paused
  | complete
deriving DecidableEq

/-- Suspension points of `startBlock` / `runTrial`:
`window t` = awaiting the response window of trial `t`;
`isi t` = awaiting the ISI remainder after trial `t`;
`pauseWait t` = awaiting a 100 ms pause poll before trial `t`;
`preLevelUp` = awaiting the 1 s delay before the level-up cue;
`done` = `startBlock` has returned. -/
inductive EnginePC
  | window (t : Nat)
  | isi (t : Nat)
  | pauseWait (t : Nat)
  | preLevelUp
  | done
deriving DecidableEq

/-- Events dispatched by the engine (`dispatchEvent` calls). -/
inductive Ev
  | blockStart (n totalTrials : Nat)
  | trialStart (trialIndex totalTrials : Nat) (isMatch : Bool)
  | trialEnd (trialIndex : Nat) (userPressed wasMatch correct : Bool)
  | paused
  | resumed
  | stopped
  | blockComplete (results : BlockResult) (nextLevel : ℤ) (currentN : Nat)
deriving DecidableEq

/-- Engine configuration. `result = none` while the `startBlock` promise is
pending, `some none` once it resolved with `null` (aborted block),
`some (some (r, l))` once it resolved with `{results, nextLevel}`.
`pending` holds the computed block result between the block-complete cue and
the delayed level-up cue. -/
structure Cfg where
  state : EngState
  currentN : Nat
  seq : JSSequence
  currentTrial : Nat
  userPressed : Bool
  scorer : ScorerState
  pc : EnginePC
  trace : List Ev
  result : Option (Option (BlockResult × ℤ))
  pending : Option (BlockResult × ℤ)
deriving DecidableEq

/-- External/internal labels driving the engine. -/
inductive Label
  | tick
  | press
  | pause
  | resume
  | stop
deriving DecidableEq

/-- `this.sequence.matchPositions.includes(trialIndex)`. -/
def isMatchAt (c : Cfg) (t : Nat) : Bool := c.seq.matchPositions.contains t

/-- The `correct` field of the trial-end event
(src/game/game-engine.js line 196). -/
def corrFlag (userPressed wasMatch : Bool) : Bool :=
  (wasMatch && userPressed) || (!wasMatch && !userPressed)

/-- The code after the trial loop of `startBlock`
(src/game/game-engine.js lines 123-150): if the state is not `idle`, move to
`complete`, compute results and next level, and either park before the
level-up cue (when the level increased) or emit `blockComplete` and resolve;
if the state is `idle`, resolve with `null`. -/
def epilogue (c : Cfg) : Cfg :=
  if c.state = EngState.idle then
    { c with result := some none, pc := EnginePC.done }
  else
    if (c.currentN : ℤ) <
        calculateNextLevel (c.currentN : ℤ) c.scorer.getResults.accuracy then
      { c with state := EngState.complete,
               pending := some (c.scorer.getResults,
                 calculateNextLevel (c.currentN : ℤ) c.scorer.getResults.accuracy),
               pc := EnginePC.preLevelUp }
    else
      { c with state := EngState.complete,
               trace := c.trace ++ [Ev.blockComplete c.scorer.getResults
                 (calculateNextLevel (c.currentN : ℤ) c.scorer.getResults.accuracy)
                 c.currentN],
               result := some (some (c.scorer.getResults,
                 calculateNextLevel (c.currentN : ℤ) c.scorer.getResults.accuracy)),
               pc := EnginePC.done }

/-- The synchronous prefix of `runTrial(t)` (src/game/game-engine.js
lines 157-175): clear the latched press flag, emit `trialStart`, play the
letter, and park at the response window. -/
def startTrial (c : Cfg) (t : Nat) : Cfg :=
  { c with userPressed := false,
           trace := c.trace ++ [Ev.trialStart t c.seq.totalTrials (isMatchAt c t)],
           pc := EnginePC.window t }

/-- Head of the trial loop of `startBlock` (src/game/game-engine.js
lines 110-121) arriving at trial index `t`: exit the loop when trials are
exhausted, break on `idle`, park at the pause poll when `paused`, and
otherwise start trial `t`. -/
def loopEnter (c : Cfg) (t : Nat) : Cfg :=
  if t < c.seq.totalTrials then
    if c.state = EngState.idle then epilogue { c with currentTrial := t }
    else if c.state = EngState.paused then
      { c with currentTrial := t, pc := EnginePC.pauseWait t }
    else startTrial { c with currentTrial := t } t
  else epilogue { c with currentTrial := t }

/-- The awaited timer at the current suspension point fires.
At `window t`: score the trial, play feedback, emit `trialEnd`, and (since
`TIMING.ISI - TIMING.RESPONSE_WINDOW = 500 > 0`) park at the ISI remainder.
At `isi t`: advance the loop to trial `t+1`.
At `pauseWait t`: re-park while still `paused`; on `idle` break out of the
loop; otherwise run trial `t`.
At `preLevelUp`: play the level-up cue, emit `blockComplete`, resolve. -/
def engineTick (c : Cfg) : Cfg :=
  match c.pc with
  | EnginePC.window t =>
      if 0 < TIMING_ISI - TIMING_RESPONSE_WINDOW then
        { c with
          scorer := c.scorer.recordTrial c.userPressed (isMatchAt c t),
          trace := c.trace ++
            [Ev.trialEnd t c.userPressed (isMatchAt c t)
              (corrFlag c.userPressed (isMatchAt c t))],
          pc := EnginePC.isi t }
      else
        loopEnter
          { c with
            scorer := c.scorer.recordTrial c.userPressed (isMatchAt c t),
            trace := c.trace ++
              [Ev.trialEnd t c.userPressed (isMatchAt c t)
                (corrFlag c.userPressed (isMatchAt c t))] } (t+1)
  | EnginePC.isi t => loopEnter c (t+1)
  | EnginePC.pauseWait t =>
      if c.state = EngState.paused then c
      else if c.state = EngState.idle then epilogue c
      else startTrial c t
  | EnginePC.preLevelUp =>
      match c.pending with
      | some rl =>
          { c with trace := c.trace ++ [Ev.blockComplete rl.1 rl.2 c.currentN],
                   result := some (some rl), pending := none, pc := EnginePC.done }
      | none => c
  | EnginePC.done => c

/-- One labelled step: `tick` fires the awaited timer; `press`, `pause`,
`resume`, `stop` run the corresponding handler
(src/game/game-engine.js lines 210-251). -/
def step (c : Cfg) : Label → Cfg
  | Label.tick => engineTick c
  | Label.press =>
      if c.state = EngState.playing then { c with userPressed := true } else c
  | Label.pause =>
      if c.state = EngState.playing then
        { c with state := EngState.paused, trace := c.trace ++ [Ev.paused] }
      else c
  | Label.resume =>
      if c.state = EngState.paused then
        { c with state := EngState.playing, trace := c.trace ++ [Ev.resumed] }
      else c
  | Label.stop => { c with state := EngState.idle, trace := c.trace ++ [Ev.stopped] }

/-- Run a schedule of labels from a configuration. -/
def run (c : Cfg) (s : List Label) : Cfg := s.foldl step c

/-- The synchronous prefix of `startBlock(n, trialCount)`
(src/game/game-engine.js lines 92-121) given the generated sequence `seq`:
reset the scorer, set state `playing`, emit `blockStart`, and enter the
trial loop at index 0. -/
def startBlockInit (n : Nat) (seq : JSSequence) : Cfg :=
  loopEnter
    { state := EngState.playing, currentN := n, seq := seq, currentTrial := 0,
      userPressed := false, scorer := scorerZero, pc := EnginePC.window 0,
      trace := [Ev.blockStart n seq.totalTrials], result := none, pending := none } 0

/-- Schedule of an uninterrupted block from trial `t` with `r` trials left:
per trial an optional press during the response window, the window timer and
the ISI timer; one trailing tick for the possible pre-level-up delay. -/
def segs (press : Nat → Bool) : Nat → Nat → List Label
  | _, 0 => [Label.tick]
  | t, r+1 =>
      (if press t then [Label.press] else []) ++
        Label.tick :: Label.tick :: segs press (t+1) r

/-- Canonical event suffix of an uninterrupted run from trial `t` with `r`
trials left, starting from scorer state `s`. -/
def fullTail (press : Nat → Bool) (mp : List Nat) (k nN : Nat) :
    ScorerState → Nat → Nat → List Ev
  | s, _, 0 =>
      [Ev.blockComplete s.getResults
        (calculateNextLevel (nN : ℤ) s.getResults.accuracy) nN]
  | s, t, r+1 =>
      Ev.trialStart t k (mp.contains t) ::
        Ev.trialEnd t (press t) (mp.contains t) (corrFlag (press t) (mp.contains t)) ::
        fullTail press mp k nN (s.recordTrial (press t) (mp.contains t)) (t+1) r

/-- The trial-start/trial-end pairs of an uninterrupted run from trial `t`
with `r` trials left. -/
def pairsTrace (press : Nat → Bool) (mp : List Nat) (k : Nat) : Nat → Nat → List Ev
  | _, 0 => []
  | t, r+1 =>
      Ev.trialStart t k (mp.contains t) ::
        Ev.trialEnd t (press t) (mp.contains t) (corrFlag (press t) (mp.contains t)) ::
        pairsTrace press mp k (t+1) r

/-- Scorer state after recording trials `t`, `t+1`, ..., `t+r-1` of an
uninterrupted run. -/
def scorerFold (press : Nat → Bool) (mp : List Nat) :
    ScorerState → Nat → Nat → ScorerState
  | s, _, 0 => s
  | s, t, r+1 => scorerFold press mp (s.recordTrial (press t) (mp.contains t)) (t+1) r

/-- Classifier: is this event a `trialStart`? -/
def isTrialStartEv : Ev → Bool
  | Ev.trialStart _ _ _ => true
  | _ => false

/-- Classifier: is this event a `trialEnd`? -/
def isTrialEndEv : Ev → Bool
  | Ev.trialEnd _ _ _ _ => true
  | _ => false

/-- Classifier: is this event a `blockComplete`? -/
def isBlockCompleteEv : Ev → Bool
  | Ev.blockComplete _ _ _ => true
  | _ => false

/-- Trial index carried by a `trialStart` event. -/
def startIdxOf : Ev → Option Nat
  | Ev.trialStart t _ _ => some t
  | _ => none

/-- Trial index carried by a `trialEnd` event. -/
def endIdxOf : Ev → Option Nat
  | Ev.trialEnd t _ _ _ => some t
  | _ => none

/-- Program counters the trial loop can be parked at. -/
def LoopPC (pc : EnginePC) : Prop :=
  ∃ t, pc = EnginePC.window t ∨ pc = EnginePC.isi t ∨ pc = EnginePC.pauseWait t

/-- Invariant: whenever the engine state is `playing` or `paused`, the block
loop is parked at a loop suspension point and the `startBlock` promise is
still pending. -/
def EngineInv (c : Cfg) : Prop :=
  (c.state = EngState.playing ∨ c.state = EngState.paused) →
    (LoopPC c.pc ∧ c.result = none)

/-- Outcome asserted by claim C6 for a `stop` delivered at `c`: after the
stop and (at most) the two timer firings of the in-progress trial, the
`startBlock` promise has resolved with `null`, the state is `idle`, and the
events added after the stop contain no `blockComplete` and no further
`trialStart`. -/
def StopAborts (c : Cfg) : Prop :=
  (run c [Label.stop, Label.tick, Label.tick]).result = some none ∧
  (run c [Label.stop, Label.tick, Label.tick]).state = EngState.idle ∧
  ∃ d, (run c [Label.stop, Label.tick, Label.tick]).trace = c.trace ++ d ∧
    ∀ e ∈ d, isBlockCompleteEv e = false ∧ isTrialStartEv e = false

/-- A stimulus cell holds an actual letter of the 8-letter alphabet (it is
neither null nor a value outside `LETTERS`). -/
def inAlphabet (o : Option Char) : Prop :=
  ∃ c, o = some c ∧ c ∈ LETTERS

/-- Well-formedness of a generated sequence, as stated by claim C1:
`totalTrials` stimuli all drawn from the 8-letter alphabet, match positions
in `[n, totalTrials)`, matches equal their `n`-back predecessor, non-matches
differ from it, and `matchPositions` sorted strictly ascending. -/
def WellFormedSeq (n totalTrials : Nat) (s : JSSequence) : Prop :=
  s.n = n ∧ s.totalTrials = totalTrials ∧
  s.letters.length = totalTrials ∧
  (∀ j, j < totalTrials → inAlphabet (s.letters.getD j none)) ∧
  (∀ p ∈ s.matchPositions, n ≤ p ∧ p < totalTrials) ∧
  (∀ p ∈ s.matchPositions, s.letters.getD p none = s.letters.getD (p - n) none) ∧
  (∀ i, i < totalTrials → n ≤ i → i ∉ s.matchPositions →
    s.letters.getD i none ≠ s.letters.getD (i - n) none) ∧
  List.Sorted (· < ·) s.matchPositions

/-- Constant-zero oracle tape, used for concrete evaluations. -/
def g0 : Nat → Nat := fun _ => 0

/-- A concrete 2-trial sequence used in concrete engine runs. -/
def seqA : JSSequence :=
  ⟨[some 'C', some 'C'], [1], 1, 2⟩

/-- A concrete paused configuration, used to witness the press/pause/resume
no-op theorems. -/
def cfgPaused : Cfg :=
  { state := EngState.paused, currentN := 2, seq := seqA, currentTrial := 0,
    userPressed := false, scorer := scorerZero, pc := EnginePC.window 0,
    trace := [], result := none, pending := none }

/-- A concrete idle configuration. -/
def cfgIdle : Cfg :=
  { cfgPaused with state := EngState.idle }

/-- The 22 trials of the scorer worked example of the spec: 5 hits, 1 miss,
2 false alarms, 14 correct rejections, recorded in that order.  Each pair is
`(userPressed, wasMatch)`. -/
def exampleTrials : List (Bool × Bool) :=
  List.replicate 5 (true, true) ++ List.replicate 1 (false, true) ++
    List.replicate 2 (true, false) ++ List.replicate 14 (false, false)

/-- Scorer state after recording the worked example after a reset. -/
def exampleScorer : ScorerState :=
  exampleTrials.foldl (fun s p => s.recordTrial p.1 p.2) (ScorerState.reset scorerZero)

/-- C3: `recordTrial` classifies each trial into exactly one of the four
signal-detection categories and increments exactly that counter (together
with the corresponding total); `getResults` computes
`hitRate = hits/totalMatches` (0 when `totalMatches = 0`),
`correctRejectionRate = correctRejections/totalNonMatches` (0 when
`totalNonMatches = 0`), and `accuracy = (hitRate + correctRejectionRate)/2`;
and the worked example (5 hits, 1 miss, 2 false alarms, 14 correct
rejections) yields `hitRate = 5/6`, `correctRejectionRate = 7/8`,
`accuracy = 41/48 ≈ 0.854`. -/
theorem scorer_recordTrial_getResults_correct :
    (∀ s : ScorerState,
      s.recordTrial true true =
        { s with totalMatches := s.totalMatches + 1, hits := s.hits + 1 } ∧
      s.recordTrial false true =
        { s with totalMatches := s.totalMatches + 1, misses := s.misses + 1 } ∧
      s.recordTrial true false =
        { s with totalNonMatches := s.totalNonMatches + 1,
                 falseAlarms := s.falseAlarms + 1 } ∧
      s.recordTrial false false =
        { s with totalNonMatches := s.totalNonMatches + 1,
                 correctRejections := s.correctRejections + 1 }) ∧
    (∀ (s : ScorerState) (u w : Bool),
      (s.recordTrial u w).hits + (s.recordTrial u w).misses +
        (s.recordTrial u w).falseAlarms + (s.recordTrial u w).correctRejections =
        s.hits + s.misses + s.falseAlarms + s.correctRejections + 1) ∧
    (∀ s : ScorerState,
      s.getResults.hitRate =
        (if s.totalMatches > 0 then (s.hits : ℚ) / s.totalMatches else 0) ∧
      s.getResults.correctRejectionRate =
        (if s.totalNonMatches > 0 then (s.correctRejections : ℚ) / s.totalNonMatches else 0) ∧
      s.getResults.accuracy =
        (s.getResults.hitRate + s.getResults.correctRejectionRate) / 2) ∧
    (exampleScorer.hits = 5 ∧ exampleScorer.misses = 1 ∧
     exampleScorer.falseAlarms = 2 ∧ exampleScorer.correctRejections = 14 ∧
     exampleScorer.getResults.hitRate = 5/6 ∧
     exampleScorer.getResults.correctRejectionRate = 7/8 ∧
     exampleScorer.getResults.accuracy = 41/48) := by
  refine ⟨?_, ?_, ?_, ?_⟩
  · intro s
    refine ⟨rfl, rfl, rfl, rfl⟩
  · intro s u w
    cases u <;> cases w <;> simp [ScorerState.recordTrial] <;> omega
  · intro s
    refine ⟨rfl, rfl, rfl⟩
  · have hs : exampleScorer = ⟨5, 1, 2, 14, 6, 16⟩ := by
      show List.foldl _ _ _ = _
      simp [exampleTrials, List.replicate, ScorerState.recordTrial, ScorerState.reset,
        scorerZero]
    refine ⟨by rw [hs], by rw [hs], by rw [hs], by rw [hs], ?_, ?_, ?_⟩
    · rw [hs]; simp [ScorerState.getResults]
    · rw [hs]; simp [ScorerState.getResults]; norm_num
    · rw [hs]; simp [ScorerState.getResults]; norm_num

/-- C4: `calculateNextLevel` raises the level (capped at 9) when accuracy is
at least 0.85, lowers it (floored at 1) when accuracy is below 0.70, and
keeps it otherwise; with the five concrete evaluations of the spec. -/
theorem calculateNextLevel_correct :
    (∀ (currentN : ℤ) (accuracy : ℚ),
      (85/100 ≤ accuracy → calculateNextLevel currentN accuracy = min (currentN + 1) 9) ∧
      (accuracy < 70/100 → calculateNextLevel currentN accuracy = max (currentN - 1) 1) ∧
      (70/100 ≤ accuracy → accuracy < 85/100 → calculateNextLevel currentN accuracy = currentN)) ∧
    calculateNextLevel 2 (86/100) = 3 ∧ calculateNextLevel 2 (65/100) = 1 ∧
    calculateNextLevel 2 (77/100) = 2 ∧ calculateNextLevel 1 (50/100) = 1 ∧
    calculateNextLevel 9 (95/100) = 9 := by
  have hmain : ∀ (currentN : ℤ) (accuracy : ℚ),
      (85/100 ≤ accuracy → calculateNextLevel currentN accuracy = min (currentN + 1) 9) ∧
      (accuracy < 70/100 → calculateNextLevel currentN accuracy = max (currentN - 1) 1) ∧
      (70/100 ≤ accuracy → accuracy < 85/100 → calculateNextLevel currentN accuracy = currentN) := by
    intro currentN accuracy
    refine ⟨?_, ?_, ?_⟩
    · intro h
      rw [calculateNextLevel, if_pos]
      · rfl
      · exact h
    · intro h
      rw [calculateNextLevel, if_neg, if_pos]
      · rfl
      · exact h
      · rw [INCREASE_THRESHOLD]
        intro hc
        have : (70:ℚ)/100 < 85/100 := by norm_num
        linarith
    · intro h1 h2
      rw [calculateNextLevel, if_neg, if_neg]
      · rw [DECREASE_THRESHOLD]
        exact not_lt.mpr h1
      · rw [INCREASE_THRESHOLD]
        exact not_le.mpr h2
  refine ⟨hmain, ?_, ?_, ?_, ?_, ?_⟩
  · rw [(hmain 2 (86/100)).1 (by norm_num)]; decide
  · rw [(hmain 2 (65/100)).2.1 (by norm_num)]; decide
  · rw [(hmain 2 (77/100)).2.2 (by norm_num) (by norm_num)]
  · rw [(hmain 1 (50/100)).2.1 (by norm_num)]; decide
  · rw [(hmain 9 (95/100)).1 (by norm_num)]; decide

/-- Witness for `calculateNextLevel_correct`: the conditional parts applied
at concrete points. -/
theorem calculateNextLevel_correct_witness :
    calculateNextLevel 2 (86/100) = min (2 + 1) 9 ∧
    calculateNextLevel 2 (65/100) = max (2 - 1) 1 ∧
    calculateNextLevel 2 (77/100) = 2 :=
  ⟨(calculateNextLevel_correct.1 2 (86/100)).1 (by norm_num),
   (calculateNextLevel_correct.1 2 (65/100)).2.1 (by norm_num),
   (calculateNextLevel_correct.1 2 (77/100)).2.2 (by norm_num) (by norm_num)⟩

/-- C9: `reset()` is idempotent, and `getResults` after a reset is the fully
zeroed block result (all four counters 0, both rates 0, accuracy 0). -/
theorem scorer_reset_idempotent :
    (∀ s : ScorerState, (s.reset).reset = s.reset) ∧
    (∀ s : ScorerState, (s.reset).getResults = ⟨0, 0, 0, 0, 0, 0, 0⟩) := by
  constructor
  · intro s; rfl
  · intro s
    show scorerZero.getResults = _
    rw [ScorerState.getResults]
    norm_num [scorerZero]

/-! Helper lemmas about list indexing used by the generator proofs. -/

/-- Reading the position just written by `List.set`. -/
theorem getD_set_self {α : Type} : ∀ (l : List α) (i : Nat) (v d : α),
    i < l.length → (l.set i v).getD i d = v := by
  intro l
  induction l with
  | nil => intro i v d h; simp at h
  | cons a t ih =>
      intro i v d h
      cases i with
      | zero => rfl
      | succ i' =>
          show (t.set i' v).getD i' d = v
          exact ih i' v d (by simpa using h)

/-- Reading a position other than the one written by `List.set`. -/
theorem getD_set_ne {α : Type} : ∀ (l : List α) (i j : Nat) (v d : α),
    i ≠ j → (l.set i v).getD j d = l.getD j d := by
  intro l
  induction l with
  | nil => intro i j v d _; rfl
  | cons a t ih =>
      intro i j v d hne
      cases i with
      | zero =>
          cases j with
          | zero => exact absurd rfl hne
          | succ j' => rfl
      | succ i' =>
          cases j with
          | zero => rfl
          | succ j' =>
              show (t.set i' v).getD j' d = t.getD j' d
              exact ih i' j' v d (fun h => hne (by rw [h]))

/-- Reading any position of a replicated list with the replicated value as
default. -/
theorem getD_replicate {α : Type} : ∀ (k j : Nat) (x : α),
    (List.replicate k x).getD j x = x := by
  intro k
  induction k with
  | zero => intro j x; rfl
  | succ k' ih =>
      intro j x
      cases j with
      | zero => rfl
      | succ j' => exact ih j' x

/-- Moving the `j`-th element of a list to the front while writing `a` in its
place is a permutation of putting `a` in front. -/
theorem perm_cons_getD_set : ∀ (t : List Nat) (j : Nat) (a : Nat), j < t.length →
    List.Perm (t.getD j 0 :: t.set j a) (a :: t) := by
  intro t
  induction t with
  | nil => intro j a h; simp at h
  | cons b u ih =>
      intro j a h
      cases j with
      | zero => exact List.Perm.swap a b u
      | succ j' =>
          have hj : j' < u.length := by simpa using h
          show List.Perm (u.getD j' 0 :: b :: u.set j' a) (a :: b :: u)
          have s1 : List.Perm (u.getD j' 0 :: b :: u.set j' a)
              (b :: u.getD j' 0 :: u.set j' a) :=
            List.Perm.swap b (u.getD j' 0) (u.set j' a)
          have s2 : List.Perm (b :: u.getD j' 0 :: u.set j' a) (b :: a :: u) :=
            List.Perm.cons b (ih j' a hj)
          have s3 : List.Perm (b :: a :: u) (a :: b :: u) := List.Perm.swap a b u
          exact s1.trans (s2.trans s3)

/-- The JavaScript destructuring swap permutes the list. -/
theorem swapL_perm : ∀ (l : List Nat) (i j : Nat), i < l.length → j < l.length →
    List.Perm (swapL l i j) l := by
  intro l
  induction l with
  | nil => intro i j hi _; simp at hi
  | cons a t ih =>
      intro i j hi hj
      cases i with
      | zero =>
          cases j with
          | zero => exact List.Perm.refl _
          | succ j' =>
              have hj' : j' < t.length := by simpa using hj
              show List.Perm (t.getD j' 0 :: t.set j' a) (a :: t)
              exact perm_cons_getD_set t j' a hj'
      | succ i' =>
          cases j with
          | zero =>
              have hi' : i' < t.length := by simpa using hi
              show List.Perm (t.getD i' 0 :: t.set i' a) (a :: t)
              exact perm_cons_getD_set t i' a hi'
          | succ j' =>
              have hi' : i' < t.length := by simpa using hi
              have hj' : j' < t.length := by simpa using hj
              show List.Perm (a :: swapL t i' j') (a :: t)
              exact List.Perm.cons a (ih i' j' hi' hj')

/-- The Fisher-Yates loop permutes the list. -/
theorem shuffleGo_perm (g : Nat → Nat) : ∀ (i k : Nat) (l : List Nat),
    i < l.length → List.Perm (shuffleGo g k i l).1 l := by
  intro i
  induction i with
  | zero => intro k l _; exact List.Perm.refl l
  | succ i' ih =>
      intro k l h
      have hjlt : g k % (i'+2) < l.length :=
        Nat.lt_of_lt_of_le (Nat.mod_lt _ (by omega)) (by omega)
      have hlen : (swapL l (i'+1) (g k % (i'+2))).length = l.length := by
        simp [swapL, List.length_set]
      have h1 : i' < (swapL l (i'+1) (g k % (i'+2))).length := by omega
      exact (ih (k+1) _ h1).trans (swapL_perm l (i'+1) (g k % (i'+2)) h hjlt)

/-- `shuffleArray` permutes the list. -/
theorem shuffleArray_perm (g : Nat → Nat) (k : Nat) (l : List Nat) :
    List.Perm (shuffleArray g k l).1 l := by
  cases l with
  | nil => exact List.Perm.refl _
  | cons a t =>
      exact shuffleGo_perm g ((a :: t).length - 1) k (a :: t)
        (by simp only [List.length_cons]; omega)

/-- `fillFirstGo` preserves the array length. -/
theorem fillFirstGo_length (g : Nat → Nat) : ∀ (r i k : Nat)
    (letters : List (Option Char)),
    (fillFirstGo g r i k letters).1.length = letters.length := by
  intro r
  induction r with
  | zero => intro i k letters; rfl
  | succ r' ih =>
      intro i k letters
      show (fillFirstGo g r' (i+1) (k+1) _).1.length = _
      rw [ih, List.length_set]

/-- `fillFirstGo` does not touch positions outside `[i, i+r)`. -/
theorem fillFirstGo_stable (g : Nat → Nat) : ∀ (r i k : Nat)
    (letters : List (Option Char)) (j : Nat), j < i ∨ i + r ≤ j →
    (fillFirstGo g r i k letters).1.getD j none = letters.getD j none := by
  intro r
  induction r with
  | zero => intro i k letters j _; rfl
  | succ r' ih =>
      intro i k letters j hj
      show (fillFirstGo g r' (i+1) (k+1) _).1.getD j none = _
      rw [ih (i+1) (k+1) _ j (by omega)]
      exact getD_set_ne _ i j _ none (by omega)

/-- Every position in `[i, i+r)` holds an alphabet letter after
`fillFirstGo`. -/
theorem fillFirstGo_some (g : Nat → Nat) : ∀ (r i k : Nat)
    (letters : List (Option Char)) (j : Nat), i ≤ j → j < i + r →
    j < letters.length →
    inAlphabet ((fillFirstGo g r i k letters).1.getD j none) := by
  intro r
  induction r with
  | zero => intro i k letters j h1 h2 _; omega
  | succ r' ih =>
      intro i k letters j h1 h2 h3
      show inAlphabet ((fillFirstGo g r' (i+1) (k+1)
        (letters.set i (randomLetter g k))).1.getD j none)
      rcases Nat.eq_or_lt_of_le h1 with heq | hlt
      · subst heq
        rw [fillFirstGo_stable g r' (i+1) (k+1) _ i (Or.inl (Nat.lt_succ_self i))]
        rw [getD_set_self _ i _ none h3]
        have hmod : (g k) % LETTERS.length < LETTERS.length :=
          Nat.mod_lt _ (by decide)
        show inAlphabet LETTERS[(g k) % LETTERS.length]?
        rw [List.getElem?_eq_getElem hmod]
        exact ⟨_, rfl, List.getElem_mem hmod⟩
      · exact ih (i+1) (k+1) _ j hlt (by omega) (by rw [List.length_set]; exact h3)

/-- `fillRestGo` preserves the array length. -/
theorem fillRestGo_length (g : Nat → Nat) (mp : List Nat) (n : Nat) :
    ∀ (r i k : Nat) (letters : List (Option Char)),
    (fillRestGo g mp n r i k letters).1.length = letters.length := by
  intro r
  induction r with
  | zero => intro i k letters; rfl
  | succ r' ih =>
      intro i k letters
      show (fillRestGo g mp n (r'+1) i k letters).1.length = _
      rw [fillRestGo]
      by_cases hc : mp.contains i = true
      · rw [if_pos hc, ih, List.length_set]
      · rw [if_neg hc]
        show (fillRestGo g mp n r' (i+1) (k+1) _).1.length = _
        rw [ih, List.length_set]

/-- `fillRestGo` does not touch positions below `i`. -/
theorem fillRestGo_stable (g : Nat → Nat) (mp : List Nat) (n : Nat) :
    ∀ (r i k : Nat) (letters : List (Option Char)) (j : Nat), j < i →
    (fillRestGo g mp n r i k letters).1.getD j none = letters.getD j none := by
  intro r
  induction r with
  | zero => intro i k letters j _; rfl
  | succ r' ih =>
      intro i k letters j hj
      show (fillRestGo g mp n (r'+1) i k letters).1.getD j none = _
      rw [fillRestGo]
      by_cases hc : mp.contains i = true
      · rw [if_pos hc, ih (i+1) k _ j (by omega)]
        exact getD_set_ne _ i j _ none (by omega)
      · rw [if_neg hc]
        show (fillRestGo g mp n r' (i+1) (k+1) _).1.getD j none = _
        rw [ih (i+1) (k+1) _ j (by omega)]
        exact getD_set_ne _ i j _ none (by omega)

/-- The filter of the alphabet against one excluded value is never empty
(the alphabet has two distinct letters). -/
theorem nonMatchCandidates_ne_nil (ex : Option Char) :
    nonMatchCandidates ex ≠ [] := by
  by_cases h : ex = some 'C'
  · apply List.ne_nil_of_mem (a := 'H')
    rw [nonMatchCandidates, List.mem_filter]
    refine ⟨by decide, ?_⟩
    subst h; decide
  · apply List.ne_nil_of_mem (a := 'C')
    rw [nonMatchCandidates, List.mem_filter]
    refine ⟨by decide, ?_⟩
    simp only [decide_eq_true_eq]
    exact fun hc => h hc.symm

/-- `randomNonMatchingLetter` always returns an alphabet letter, and never
the one it was asked to avoid. -/
theorem randomNonMatchingLetter_spec (g : Nat → Nat) (k : Nat) (ex : Option Char) :
    ∃ c, randomNonMatchingLetter g k ex = some c ∧ some c ≠ ex ∧ c ∈ LETTERS := by
  have hflen : 0 < (nonMatchCandidates ex).length :=
    List.length_pos.mpr (nonMatchCandidates_ne_nil ex)
  have hidx : (g k) % (nonMatchCandidates ex).length < (nonMatchCandidates ex).length :=
    Nat.mod_lt _ hflen
  have hmem : (nonMatchCandidates ex).get ⟨(g k) % (nonMatchCandidates ex).length, hidx⟩ ∈
      nonMatchCandidates ex := List.get_mem _ _ hidx
  refine ⟨(nonMatchCandidates ex).get ⟨(g k) % (nonMatchCandidates ex).length, hidx⟩,
    ?_, ?_, ?_⟩
  · show (nonMatchCandidates ex)[(g k) % (nonMatchCandidates ex).length]? = _
    rw [List.getElem?_eq_getElem hidx]
    rfl
  · have hp := (List.mem_filter.mp hmem).2
    exact of_decide_eq_true hp
  · exact (List.mem_filter.mp hmem).1

/-- Main invariant of the step-3 fill loop: if the first `i` positions hold
alphabet letters, then after the remaining `r` iterations every position
below `i+r` holds an alphabet letter, match positions in `[i, i+r)` hold the
same letter as their `n`-back predecessor, and non-match positions hold a
different one. -/
theorem fillRestGo_spec (g : Nat → Nat) (mp : List Nat) (n : Nat) (hn : 1 ≤ n) :
    ∀ (r i k : Nat) (letters : List (Option Char)), n ≤ i →
    i + r ≤ letters.length →
    (∀ j, j < i → inAlphabet (letters.getD j none)) →
    (∀ j, j < i + r →
      inAlphabet ((fillRestGo g mp n r i k letters).1.getD j none)) ∧
    (∀ j, i ≤ j → j < i + r →
      (mp.contains j = true →
        (fillRestGo g mp n r i k letters).1.getD j none =
          (fillRestGo g mp n r i k letters).1.getD (j-n) none) ∧
      (mp.contains j = false →
        (fillRestGo g mp n r i k letters).1.getD j none ≠
          (fillRestGo g mp n r i k letters).1.getD (j-n) none)) := by
  intro r
  induction r with
  | zero =>
      intro i k letters _ _ hpre
      exact ⟨fun j hj => hpre j (by omega), fun j _ hj2 => absurd hj2 (by omega)⟩
  | succ r' ih =>
      intro i k letters hi hlen hpre
      have hilen : i < letters.length := by omega
      have hstep : fillRestGo g mp n (r'+1) i k letters =
          if mp.contains i = true then
            fillRestGo g mp n r' (i+1) k
              (letters.set i (letters.getD (i-n) none))
          else
            fillRestGo g mp n r' (i+1) (k+1)
              (letters.set i (randomNonMatchingLetter g k (letters.getD (i-n) none))) :=
        rfl
      by_cases hc : mp.contains i = true
      · rw [hstep, if_pos hc]
        have hvs : inAlphabet (letters.getD (i-n) none) := hpre (i-n) (by omega)
        have hpre' : ∀ j, j < i+1 →
            inAlphabet ((letters.set i (letters.getD (i-n) none)).getD j none) := by
          intro j hj
          rcases Nat.lt_or_ge j i with hlt | hge
          · rw [getD_set_ne _ i j _ none (by omega)]
            exact hpre j hlt
          · have hji : j = i := by omega
            rw [hji, getD_set_self _ i _ none hilen]
            exact hvs
        have IH := ih (i+1) k (letters.set i (letters.getD (i-n) none)) (by omega)
          (by rw [List.length_set]; omega) hpre'
        refine ⟨fun j hj => IH.1 j (by omega), ?_⟩
        intro j h1 h2
        rcases Nat.eq_or_lt_of_le h1 with heq | hlt
        · cases heq
          constructor
          · intro _
            rw [fillRestGo_stable g mp n r' (i+1) k _ i (by omega)]
            rw [fillRestGo_stable g mp n r' (i+1) k _ (i-n) (by omega)]
            rw [getD_set_self _ i _ none hilen]
            rw [getD_set_ne _ i (i-n) _ none (by omega)]
          · intro hcf
            rw [hc] at hcf
            exact Bool.noConfusion hcf
        · exact IH.2 j (by omega) (by omega)
      · have hcf : mp.contains i = false := by
          cases hcb : mp.contains i
          · rfl
          · exact absurd hcb hc
        rw [hstep, if_neg hc]
        obtain ⟨c, hcv, hcne, hcmem⟩ :=
          randomNonMatchingLetter_spec g k (letters.getD (i-n) none)
        have hpre' : ∀ j, j < i+1 →
            inAlphabet ((letters.set i
              (randomNonMatchingLetter g k (letters.getD (i-n) none))).getD j none) := by
          intro j hj
          rcases Nat.lt_or_ge j i with hlt | hge
          · rw [getD_set_ne _ i j _ none (by omega)]
            exact hpre j hlt
          · have hji : j = i := by omega
            rw [hji, getD_set_self _ i _ none hilen, hcv]
            exact ⟨c, rfl, hcmem⟩
        have IH := ih (i+1) (k+1) _ (by omega) (by rw [List.length_set]; omega) hpre'
        refine ⟨fun j hj => IH.1 j (by omega), ?_⟩
        intro j h1 h2
        rcases Nat.eq_or_lt_of_le h1 with heq | hlt
        · cases heq
          constructor
          · intro hct
            rw [hcf] at hct
            exact Bool.noConfusion hct
          · intro _
            rw [fillRestGo_stable g mp n r' (i+1) (k+1) _ i (by omega)]
            rw [fillRestGo_stable g mp n r' (i+1) (k+1) _ (i-n) (by omega)]
            rw [getD_set_self _ i _ none hilen]
            rw [getD_set_ne _ i (i-n) _ none (by omega)]
            rw [hcv]
            exact hcne
        · exact IH.2 j (by omega) (by omega)

/-- The selected, sorted match positions lie in `[n, n+len)` and are sorted
strictly ascending, for any take-count. -/
theorem sortedSel_bounds (g : Nat → Nat) (n len count : Nat) :
    (∀ p ∈ List.insertionSort (· ≤ ·)
        ((shuffleArray g 0 (List.range' n len)).1.take count), n ≤ p ∧ p < n + len) ∧
    List.Sorted (· < ·) (List.insertionSort (· ≤ ·)
        ((shuffleArray g 0 (List.range' n len)).1.take count)) := by
  have hperm2 := shuffleArray_perm g 0 (List.range' n len)
  have hsub := List.take_sublist count (shuffleArray g 0 (List.range' n len)).1
  have hmem : ∀ p ∈ List.insertionSort (· ≤ ·)
      ((shuffleArray g 0 (List.range' n len)).1.take count), p ∈ List.range' n len := by
    intro p hp
    have hp1 := (List.perm_insertionSort (· ≤ ·)
      ((shuffleArray g 0 (List.range' n len)).1.take count)).mem_iff.mp hp
    exact hperm2.subset (hsub.subset hp1)
  constructor
  · intro p hp
    exact List.mem_range'_1.mp (hmem p hp)
  · have hnd0 : (List.range' n len).Nodup := List.nodup_range' _ _
    have hnd1 : (shuffleArray g 0 (List.range' n len)).1.Nodup := hperm2.symm.nodup hnd0
    have hnd2 : ((shuffleArray g 0 (List.range' n len)).1.take count).Nodup :=
      List.Nodup.sublist hsub hnd1
    have hnd3 : (List.insertionSort (· ≤ ·)
        ((shuffleArray g 0 (List.range' n len)).1.take count)).Nodup :=
      ((List.perm_insertionSort (· ≤ ·) _).symm).nodup hnd2
    have hsort : List.Sorted (· ≤ ·) (List.insertionSort (· ≤ ·)
        ((shuffleArray g 0 (List.range' n len)).1.take count)) :=
      List.sorted_insertionSort _ _
    exact (List.Pairwise.and hsort hnd3).imp (fun h => lt_of_le_of_ne h.1 h.2)

/-- Bounds of the match positions produced by the generator body. -/
theorem core_matchPositions_mem (n totalTrials count : Nat) (g : Nat → Nat) :
    ∀ p ∈ (generateSequenceCore n totalTrials count g).matchPositions,
      n ≤ p ∧ p < max totalTrials (n+1) := by
  intro p hp
  have hnT : n + 1 ≤ max totalTrials (n+1) := le_max_right _ _
  have h := (sortedSel_bounds g n (max totalTrials (n+1) - n) count).1 p hp
  omega

/-- The match positions produced by the generator body are sorted strictly
ascending. -/
theorem core_matchPositions_sorted (n totalTrials count : Nat) (g : Nat → Nat) :
    List.Sorted (· < ·) (generateSequenceCore n totalTrials count g).matchPositions :=
  (sortedSel_bounds g n (max totalTrials (n+1) - n) count).2

/-- The stimuli produced by the generator body: correct length, all
positions hold alphabet letters, match positions repeat their `n`-back
predecessor, non-match positions do not. -/
theorem core_letters_spec (n totalTrials count : Nat) (g : Nat → Nat) (hn : 1 ≤ n) :
    (generateSequenceCore n totalTrials count g).letters.length = max totalTrials (n+1) ∧
    (∀ j, j < max totalTrials (n+1) →
      inAlphabet ((generateSequenceCore n totalTrials count g).letters.getD j none)) ∧
    (∀ j, n ≤ j → j < max totalTrials (n+1) →
      (((generateSequenceCore n totalTrials count g).matchPositions.contains j = true →
        (generateSequenceCore n totalTrials count g).letters.getD j none =
          (generateSequenceCore n totalTrials count g).letters.getD (j-n) none) ∧
      ((generateSequenceCore n totalTrials count g).matchPositions.contains j = false →
        (generateSequenceCore n totalTrials count g).letters.getD j none ≠
          (generateSequenceCore n totalTrials count g).letters.getD (j-n) none))) := by
  have hnT : n + 1 ≤ max totalTrials (n+1) := le_max_right _ _
  have f1len : (fillFirst g n 0
      (shuffleArray g 0 (List.range' n (max totalTrials (n+1) - n))).2
      (List.replicate (max totalTrials (n+1)) none)).1.length =
      max totalTrials (n+1) := by
    show (fillFirstGo g (n - 0) 0 _ _).1.length = _
    rw [fillFirstGo_length, List.length_replicate]
  have f1some : ∀ j, j < n →
      inAlphabet ((fillFirst g n 0
        (shuffleArray g 0 (List.range' n (max totalTrials (n+1) - n))).2
        (List.replicate (max totalTrials (n+1)) none)).1.getD j none) := by
    intro j hj
    exact fillFirstGo_some g (n - 0) 0 _ _ j (Nat.zero_le j) (by omega)
      (by rw [List.length_replicate]; omega)
  have key := fillRestGo_spec g
      (generateSequenceCore n totalTrials count g).matchPositions n hn
      (max totalTrials (n+1) - n) n
      (fillFirst g n 0
        (shuffleArray g 0 (List.range' n (max totalTrials (n+1) - n))).2
        (List.replicate (max totalTrials (n+1)) none)).2
      (fillFirst g n 0
        (shuffleArray g 0 (List.range' n (max totalTrials (n+1) - n))).2
        (List.replicate (max totalTrials (n+1)) none)).1
      (le_refl n) (by rw [f1len]; omega) f1some
  refine ⟨?_, ?_, ?_⟩
  · show (fillRestGo g _ n (max totalTrials (n+1) - n) n _ _).1.length = _
    rw [fillRestGo_length, f1len]
  · intro j hj
    exact key.1 j (by omega)
  · intro j h1 h2
    exact key.2 j h1 (by omega)

/-- C1: for every `n ≥ 1`, `totalTrials ≥ n+1` and `matchRate` in `(0,1]`,
`generateSequence` returns a well-formed sequence: exactly `totalTrials`
stimuli, each a member of the 8-letter alphabet `LETTERS` (`inAlphabet`),
every match position in `[n, totalTrials)` with
`stimuli[p] = stimuli[p-n]`, every non-match index `i ≥ n` with
`stimuli[i] ≠ stimuli[i-n]`, and `matchPositions` sorted ascending. -/
theorem generateSequence_wellFormed (n totalTrials : Nat) (r : ℚ) (g : Nat → Nat)
    (hn : 1 ≤ n) (ht : n + 1 ≤ totalTrials) (hr0 : 0 < r) (hr1 : r ≤ 1) :
    WellFormedSeq n totalTrials (generateSequence n totalTrials (some r) g) := by
  have hT : max totalTrials (n + 1) = totalTrials := max_eq_left ht
  obtain ⟨cnt, hcnt⟩ : ∃ cnt, generateSequence n totalTrials (some r) g =
      generateSequenceCore n totalTrials cnt g := ⟨_, rfl⟩
  rw [hcnt]
  have hmem := core_matchPositions_mem n totalTrials cnt g
  have hsorted := core_matchPositions_sorted n totalTrials cnt g
  have hlet := core_letters_spec n totalTrials cnt g hn
  rw [hT] at hmem hlet
  refine ⟨rfl, ?_, ?_, ?_, ?_, ?_, ?_, ?_⟩
  · show max totalTrials (n+1) = totalTrials
    exact hT
  · exact hlet.1
  · exact hlet.2.1
  · exact hmem
  · intro p hp
    have hb := hmem p hp
    have hcont : (generateSequenceCore n totalTrials cnt g).matchPositions.contains p
        = true := List.elem_iff.mpr hp
    exact (hlet.2.2 p hb.1 hb.2).1 hcont
  · intro i hi1 hi2 hnotmem
    have hcont : (generateSequenceCore n totalTrials cnt g).matchPositions.contains i
        = false := by
      cases hcb : (generateSequenceCore n totalTrials cnt g).matchPositions.contains i
      · rfl
      · exact absurd (List.elem_iff.mp hcb) hnotmem
    exact (hlet.2.2 i hi2 hi1).2 hcont
  · exact hsorted

/-- Witness for `generateSequence_wellFormed` at `n = 1`, `totalTrials = 2`,
`matchRate = 1`. -/
theorem generateSequence_wellFormed_witness :
    WellFormedSeq 1 2 (generateSequence 1 2 (some 1) g0) :=
  generateSequence_wellFormed 1 2 1 g0 (by omega) (by omega) (by norm_num) (by norm_num)

/-- Evaluation of the guaranteed-match count at 20 eligible positions and
the spec's default rate 0.3. -/
theorem matchCount_some_20 : matchCount 20 (some (3/10)) = 6 := by
  show (max 1 (jsRound (((20 : Nat) : ℚ) * (3/10)))).toNat = 6
  have h1 : ((20 : Nat) : ℚ) * (3/10) + 1/2 = 13/2 := by norm_num
  rw [jsRound, h1]
  have h2 : ⌊(13/2 : ℚ)⌋ = (6 : ℤ) := by norm_num [Int.floor_eq_iff]
  rw [h2]
  decide

/-- Evaluation of the guaranteed-match count at 2 eligible positions and
rate 0.3. -/
theorem matchCount_some_2 : matchCount 2 (some (3/10)) = 1 := by
  show (max 1 (jsRound (((2 : Nat) : ℚ) * (3/10)))).toNat = 1
  have h1 : ((2 : Nat) : ℚ) * (3/10) + 1/2 = 11/10 := by norm_num
  rw [jsRound, h1]
  have h2 : ⌊(11/10 : ℚ)⌋ = (1 : ℤ) := by norm_num [Int.floor_eq_iff]
  rw [h2]
  decide

/-- C2 (code bug): with the `matchRate` argument omitted — as at the
engine's call site `generateSequence(n, trialCount)` — the selection is
empty, because `constants.js` defines no `BLOCK.MATCH_RATE`, so the default
is `undefined` and the NaN count disables the selection loop: at
`n = 2, totalTrials = 22` the code produces 0 match positions, although the
claimed formula `max(1, round((totalTrials-n) * 0.3))` gives 6 and is never
zero.  The repo's own test (sequence-generator.test.js, Test 2) expects a
positive count here and fails. -/
theorem generateSequence_default_matchRate_bug :
    (generateSequence 2 22 none g0).matchPositions = [] ∧
    matchCount (max 22 (2+1) - 2) (some (3/10)) = 6 := by
  constructor
  · show (generateSequenceCore 2 22
      (matchCount (max 22 (2+1) - 2) none) g0).matchPositions = []
    rfl
  · have h : max 22 (2+1) - 2 = 20 := by norm_num
    rw [h]
    exact matchCount_some_20

/-- C8 counterexample: `n` is not coerced into a valid range.  Calling the
generator with the invalid level `n = 0` returns a sequence that still
carries `n = 0`, and its match position 1 holds a null stimulus (the
self-copy `letters[i] = letters[i-0]` copies the yet-unfilled cell), so the
output is not a valid sequence — `n` flowed through unvalidated. -/
theorem generateSequence_does_not_clamp_n :
    (generateSequence 0 2 (some (3/10)) g0).n = 0 ∧
    1 ∈ (generateSequence 0 2 (some (3/10)) g0).matchPositions ∧
    (generateSequence 0 2 (some (3/10)) g0).letters.getD 1 none = none := by
  have hmc : matchCount (max 2 (0+1) - 0) (some (3/10)) = 1 := by
    have h : max 2 (0+1) - 0 = 2 := by norm_num
    rw [h]
    exact matchCount_some_2
  refine ⟨rfl, ?_, ?_⟩
  · show 1 ∈ (generateSequenceCore 0 2
      (matchCount (max 2 (0+1) - 0) (some (3/10))) g0).matchPositions
    rw [hmc]
    decide
  · show (generateSequenceCore 0 2
      (matchCount (max 2 (0+1) - 0) (some (3/10))) g0).letters.getD 1 none = none
    rw [hmc]
    decide

/-- C8 (amended): `totalTrials` is clamped up to `n+1` (so if
`totalTrials - n < 1` the output has `n+1` trials), the generator never
fails — every input, including invalid `n`, yields a full-length result —
but `n` itself is passed through unvalidated. -/
theorem generateSequence_clamps_totalTrials (n t : Nat) (rate : Option ℚ)
    (g : Nat → Nat) :
    (generateSequence n t rate g).totalTrials = max t (n+1) ∧
    (generateSequence n t rate g).n = n ∧
    (generateSequence n t rate g).letters.length = max t (n+1) := by
  refine ⟨rfl, rfl, ?_⟩
  show (fillRestGo g _ n (max t (n+1) - n) n _ _).1.length = max t (n+1)
  rw [fillRestGo_length]
  show (fillFirstGo g (n - 0) 0 _ _).1.length = _
  rw [fillFirstGo_length, List.length_replicate]

/-- Unfolding: an empty schedule. -/
theorem run_nil (c : Cfg) : run c [] = c := rfl

/-- Unfolding: one label then the rest. -/
theorem run_cons (c : Cfg) (l : Label) (ls : List Label) :
    run c (l :: ls) = run (step c l) ls := rfl

/-- Unfolding: a concatenated schedule. -/
theorem run_append (c : Cfg) (l1 l2 : List Label) :
    run c (l1 ++ l2) = run (run c l1) l2 := by
  show List.foldl step c (l1 ++ l2) = _
  rw [List.foldl_append]
  rfl

/-- Trace and resolution of an uninterrupted run of the trial loop: entering
the loop at trial `t` with `r` trials remaining and running the canonical
press/tick schedule appends exactly the canonical tail (trial pairs followed
by one `blockComplete`), completes the block, and resolves the promise with
a result. -/
theorem engine_run_segs (press : Nat → Bool) :
    ∀ (r t : Nat) (c : Cfg), c.seq.totalTrials = t + r →
    c.state = EngState.playing → c.result = none → c.pending = none →
    ((run (loopEnter c t) (segs press t r)).trace =
      c.trace ++ fullTail press c.seq.matchPositions c.seq.totalTrials c.currentN
        c.scorer t r) ∧
    (run (loopEnter c t) (segs press t r)).state = EngState.complete ∧
    (∃ x, (run (loopEnter c t) (segs press t r)).result = some (some x)) := by
  intro r
  induction r with
  | zero =>
      intro t c htot hst hres hpend
      obtain ⟨st, cn, sq, ct, up, sc, pcv, tr, res, pend⟩ := c
      simp only at htot hst hres hpend
      subst hst; subst hres; subst hpend
      have hnt : ¬ (t < sq.totalTrials) := by omega
      by_cases hlev : ((cn : ℤ) <
          calculateNextLevel (cn : ℤ) (ScorerState.getResults sc).accuracy)
      · simp [run, segs, loopEnter, hnt, epilogue, hlev, engineTick, step, fullTail]
      · simp [run, segs, loopEnter, hnt, epilogue, hlev, engineTick, step, fullTail]
  | succ r' ih =>
      intro t c htot hst hres hpend
      obtain ⟨st, cn, sq, ct, up, sc, pcv, tr, res, pend⟩ := c
      simp only at htot hst hres hpend
      subst hst; subst hres; subst hpend
      have hlt : t < sq.totalTrials := by omega
      have hload : loopEnter ⟨EngState.playing, cn, sq, ct, up, sc, pcv, tr,
          none, none⟩ t =
          ⟨EngState.playing, cn, sq, t, false, sc, EnginePC.window t,
            tr ++ [Ev.trialStart t sq.totalTrials (sq.matchPositions.contains t)],
            none, none⟩ := by
        simp [loopEnter, hlt, startTrial, isMatchAt]
      rw [hload]
      have hseg : segs press t (r'+1) =
          (if press t then [Label.press] else []) ++
            Label.tick :: Label.tick :: segs press (t+1) r' := rfl
      rw [hseg, run_append]
      have hpress : run ⟨EngState.playing, cn, sq, t, false, sc, EnginePC.window t,
          tr ++ [Ev.trialStart t sq.totalTrials (sq.matchPositions.contains t)],
          none, none⟩ (if press t then [Label.press] else []) =
          ⟨EngState.playing, cn, sq, t, press t, sc, EnginePC.window t,
            tr ++ [Ev.trialStart t sq.totalTrials (sq.matchPositions.contains t)],
            none, none⟩ := by
        by_cases hp : press t
        · simp [hp, run, step]
        · simp [hp, run, step]
      rw [hpress, run_cons]
      have htick1 : step ⟨EngState.playing, cn, sq, t, press t, sc,
          EnginePC.window t,
          tr ++ [Ev.trialStart t sq.totalTrials (sq.matchPositions.contains t)],
          none, none⟩ Label.tick =
          ⟨EngState.playing, cn, sq, t, press t,
            sc.recordTrial (press t) (sq.matchPositions.contains t),
            EnginePC.isi t,
            (tr ++ [Ev.trialStart t sq.totalTrials (sq.matchPositions.contains t)]) ++
              [Ev.trialEnd t (press t) (sq.matchPositions.contains t)
                (corrFlag (press t) (sq.matchPositions.contains t))],
            none, none⟩ := by
        simp [step, engineTick, isMatchAt, TIMING_ISI, TIMING_RESPONSE_WINDOW]
      rw [htick1, run_cons]
      have htick2 : step ⟨EngState.playing, cn, sq, t, press t,
          sc.recordTrial (press t) (sq.matchPositions.contains t),
          EnginePC.isi t,
          (tr ++ [Ev.trialStart t sq.totalTrials (sq.matchPositions.contains t)]) ++
            [Ev.trialEnd t (press t) (sq.matchPositions.contains t)
              (corrFlag (press t) (sq.matchPositions.contains t))],
          none, none⟩ Label.tick =
          loopEnter ⟨EngState.playing, cn, sq, t, press t,
            sc.recordTrial (press t) (sq.matchPositions.contains t),
            EnginePC.isi t,
            (tr ++ [Ev.trialStart t sq.totalTrials (sq.matchPositions.contains t)]) ++
              [Ev.trialEnd t (press t) (sq.matchPositions.contains t)
                (corrFlag (press t) (sq.matchPositions.contains t))],
            none, none⟩ (t+1) := rfl
      rw [htick2]
      have IH := ih (t+1) ⟨EngState.playing, cn, sq, t, press t,
          sc.recordTrial (press t) (sq.matchPositions.contains t),
          EnginePC.isi t,
          (tr ++ [Ev.trialStart t sq.totalTrials (sq.matchPositions.contains t)]) ++
            [Ev.trialEnd t (press t) (sq.matchPositions.contains t)
              (corrFlag (press t) (sq.matchPositions.contains t))],
          none, none⟩ (by simp; omega) rfl rfl rfl
      refine ⟨?_, IH.2.1, IH.2.2⟩
      rw [IH.1]
      show _ = tr ++ fullTail press sq.matchPositions sq.totalTrials cn sc t (r'+1)
      rw [fullTail]
      simp

/-- The canonical tail splits into the trial pairs followed by one
`blockComplete` computed from the folded scorer state. -/
theorem fullTail_eq_pairs (press : Nat → Bool) (mp : List Nat) (k nN : Nat) :
    ∀ (r t : Nat) (s : ScorerState),
    fullTail press mp k nN s t r =
      pairsTrace press mp k t r ++
        [Ev.blockComplete (scorerFold press mp s t r).getResults
          (calculateNextLevel (nN : ℤ)
            (scorerFold press mp s t r).getResults.accuracy) nN] := by
  intro r
  induction r with
  | zero => intro t s; rfl
  | succ r' ih =>
      intro t s
      show Ev.trialStart t k (mp.contains t) ::
          Ev.trialEnd t (press t) (mp.contains t)
            (corrFlag (press t) (mp.contains t)) ::
          fullTail press mp k nN (s.recordTrial (press t) (mp.contains t)) (t+1) r' = _
      rw [ih]
      rfl

/-- The trial pairs contain `r` trial-start events. -/
theorem pairsTrace_countP_start (press : Nat → Bool) (mp : List Nat) (k : Nat) :
    ∀ (r t : Nat), (pairsTrace press mp k t r).countP isTrialStartEv = r := by
  intro r
  induction r with
  | zero => intro t; rfl
  | succ r' ih =>
      intro t
      show (Ev.trialStart t k (mp.contains t) ::
        Ev.trialEnd t (press t) (mp.contains t)
          (corrFlag (press t) (mp.contains t)) ::
        pairsTrace press mp k (t+1) r').countP isTrialStartEv = r' + 1
      rw [List.countP_cons, List.countP_cons, ih]
      rfl

/-- The trial pairs contain `r` trial-end events. -/
theorem pairsTrace_countP_end (press : Nat → Bool) (mp : List Nat) (k : Nat) :
    ∀ (r t : Nat), (pairsTrace press mp k t r).countP isTrialEndEv = r := by
  intro r
  induction r with
  | zero => intro t; rfl
  | succ r' ih =>
      intro t
      show (Ev.trialStart t k (mp.contains t) ::
        Ev.trialEnd t (press t) (mp.contains t)
          (corrFlag (press t) (mp.contains t)) ::
        pairsTrace press mp k (t+1) r').countP isTrialEndEv = r' + 1
      rw [List.countP_cons, List.countP_cons, ih]
      rfl

/-- The trial pairs contain no `blockComplete` event. -/
theorem pairsTrace_countP_bc (press : Nat → Bool) (mp : List Nat) (k : Nat) :
    ∀ (r t : Nat), (pairsTrace press mp k t r).countP isBlockCompleteEv = 0 := by
  intro r
  induction r with
  | zero => intro t; rfl
  | succ r' ih =>
      intro t
      show (Ev.trialStart t k (mp.contains t) ::
        Ev.trialEnd t (press t) (mp.contains t)
          (corrFlag (press t) (mp.contains t)) ::
        pairsTrace press mp k (t+1) r').countP isBlockCompleteEv = 0
      rw [List.countP_cons, List.countP_cons, ih]
      rfl

/-- Trial-start indices of the trial pairs, in order. -/
theorem pairsTrace_filterMap_start (press : Nat → Bool) (mp : List Nat) (k : Nat) :
    ∀ (r t : Nat), (pairsTrace press mp k t r).filterMap startIdxOf =
      List.range' t r := by
  intro r
  induction r with
  | zero => intro t; rfl
  | succ r' ih =>
      intro t
      show (Ev.trialStart t k (mp.contains t) ::
        Ev.trialEnd t (press t) (mp.contains t)
          (corrFlag (press t) (mp.contains t)) ::
        pairsTrace press mp k (t+1) r').filterMap startIdxOf = List.range' t (r'+1)
      rw [List.filterMap_cons, List.filterMap_cons, ih]
      rfl

/-- Trial-end indices of the trial pairs, in order. -/
theorem pairsTrace_filterMap_end (press : Nat → Bool) (mp : List Nat) (k : Nat) :
    ∀ (r t : Nat), (pairsTrace press mp k t r).filterMap endIdxOf =
      List.range' t r := by
  intro r
  induction r with
  | zero => intro t; rfl
  | succ r' ih =>
      intro t
      show (Ev.trialStart t k (mp.contains t) ::
        Ev.trialEnd t (press t) (mp.contains t)
          (corrFlag (press t) (mp.contains t)) ::
        pairsTrace press mp k (t+1) r').filterMap endIdxOf = List.range' t (r'+1)
      rw [List.filterMap_cons, List.filterMap_cons, ih]
      rfl

/-- Every trial-end event of the trial pairs carries the correctness flag
computed by `corrFlag` from its own fields. -/
theorem pairsTrace_trialEnd_corr (press : Nat → Bool) (mp : List Nat) (k : Nat) :
    ∀ (r t : Nat) (a : Nat) (u w b : Bool),
    Ev.trialEnd a u w b ∈ pairsTrace press mp k t r → b = corrFlag u w := by
  intro r
  induction r with
  | zero => intro t a u w b h; simp [pairsTrace] at h
  | succ r' ih =>
      intro t a u w b h
      have h' : Ev.trialEnd a u w b = Ev.trialStart t k (mp.contains t) ∨
          Ev.trialEnd a u w b = Ev.trialEnd t (press t) (mp.contains t)
            (corrFlag (press t) (mp.contains t)) ∨
          Ev.trialEnd a u w b ∈ pairsTrace press mp k (t+1) r' := by
        simpa [pairsTrace] using h
      rcases h' with h1 | h2 | h3
      · exact absurd h1 (by simp)
      · obtain ⟨_, hu, hw, hb⟩ := Ev.trialEnd.inj h2
        rw [hb, hu, hw]
      · exact ih (t+1) a u w b h3

/-- C5: a full block of `k = seq.totalTrials` trials run by `startBlock`
without any pause or stop (arbitrary presses allowed) emits exactly `k`
`trialStart` and `k` `trialEnd` notifications, paired per trial in ascending
index order `0..k-1` (the trace equals the canonical paired shape), followed
by exactly one `blockComplete`; and every `trialEnd` carries
`correct = (wasMatch && userPressed) || (!wasMatch && !userPressed)`. -/
theorem engine_full_block_trace (n : Nat) (seq : JSSequence) (press : Nat → Bool) :
    ((run (startBlockInit n seq) (segs press 0 seq.totalTrials)).trace =
      Ev.blockStart n seq.totalTrials ::
        (pairsTrace press seq.matchPositions seq.totalTrials 0 seq.totalTrials ++
          [Ev.blockComplete
            (scorerFold press seq.matchPositions scorerZero 0 seq.totalTrials).getResults
            (calculateNextLevel (n : ℤ)
              (scorerFold press seq.matchPositions scorerZero 0
                seq.totalTrials).getResults.accuracy) n])) ∧
    ((run (startBlockInit n seq) (segs press 0 seq.totalTrials)).trace.countP
        isTrialStartEv = seq.totalTrials) ∧
    ((run (startBlockInit n seq) (segs press 0 seq.totalTrials)).trace.countP
        isTrialEndEv = seq.totalTrials) ∧
    ((run (startBlockInit n seq) (segs press 0 seq.totalTrials)).trace.countP
        isBlockCompleteEv = 1) ∧
    ((run (startBlockInit n seq) (segs press 0 seq.totalTrials)).trace.filterMap
        startIdxOf = List.range seq.totalTrials) ∧
    ((run (startBlockInit n seq) (segs press 0 seq.totalTrials)).trace.filterMap
        endIdxOf = List.range seq.totalTrials) ∧
    (∀ a u w b, Ev.trialEnd a u w b ∈
        (run (startBlockInit n seq) (segs press 0 seq.totalTrials)).trace →
      b = corrFlag u w) := by
  have key := engine_run_segs press seq.totalTrials 0
    ⟨EngState.playing, n, seq, 0, false, scorerZero, EnginePC.window 0,
      [Ev.blockStart n seq.totalTrials], none, none⟩ (by simp) rfl rfl rfl
  have htr : (run (startBlockInit n seq) (segs press 0 seq.totalTrials)).trace =
      Ev.blockStart n seq.totalTrials ::
        (pairsTrace press seq.matchPositions seq.totalTrials 0 seq.totalTrials ++
          [Ev.blockComplete
            (scorerFold press seq.matchPositions scorerZero 0 seq.totalTrials).getResults
            (calculateNextLevel (n : ℤ)
              (scorerFold press seq.matchPositions scorerZero 0
                seq.totalTrials).getResults.accuracy) n]) := by
    have h1 := key.1
    rw [fullTail_eq_pairs] at h1
    exact h1
  refine ⟨htr, ?_, ?_, ?_, ?_, ?_, ?_⟩
  · rw [htr, List.countP_cons, List.countP_append, pairsTrace_countP_start]
    rfl
  · rw [htr, List.countP_cons, List.countP_append, pairsTrace_countP_end]
    rfl
  · rw [htr, List.countP_cons, List.countP_append, pairsTrace_countP_bc]
    rfl
  · rw [htr, List.filterMap_cons, List.filterMap_append, pairsTrace_filterMap_start]
    show List.range' 0 seq.totalTrials ++ [] = List.range seq.totalTrials
    rw [List.append_nil, List.range_eq_range']
  · rw [htr, List.filterMap_cons, List.filterMap_append, pairsTrace_filterMap_end]
    show List.range' 0 seq.totalTrials ++ [] = List.range seq.totalTrials
    rw [List.append_nil, List.range_eq_range']
  · intro a u w b h
    rw [htr] at h
    have h' : Ev.trialEnd a u w b = Ev.blockStart n seq.totalTrials ∨
        Ev.trialEnd a u w b ∈
          pairsTrace press seq.matchPositions seq.totalTrials 0 seq.totalTrials ∨
        Ev.trialEnd a u w b = Ev.blockComplete
          (scorerFold press seq.matchPositions scorerZero 0 seq.totalTrials).getResults
          (calculateNextLevel (n : ℤ)
            (scorerFold press seq.matchPositions scorerZero 0
              seq.totalTrials).getResults.accuracy) n := by
      simpa using h
    rcases h' with h1 | h2 | h3
    · exact absurd h1 (by simp)
    · exact pairsTrace_trialEnd_corr press seq.matchPositions seq.totalTrials
        seq.totalTrials 0 a u w b h2
    · exact absurd h3 (by simp)

/-- Epilogue from a non-idle state completes the block. -/
theorem epilogue_state (c : Cfg) (h : ¬ c.state = EngState.idle) :
    (epilogue c).state = EngState.complete := by
  rw [epilogue, if_neg h]
  by_cases hlev : ((c.currentN : ℤ) <
      calculateNextLevel (c.currentN : ℤ) c.scorer.getResults.accuracy)
  · rw [if_pos hlev]
  · rw [if_neg hlev]

/-- Epilogue from `idle` resolves the promise with `null` and stops. -/
theorem epilogue_idle (c : Cfg) (h : c.state = EngState.idle) :
    epilogue c = { c with result := some none, pc := EnginePC.done } := by
  rw [epilogue, if_pos h]


/-- One step preserves the engine invariant. -/
theorem engineInv_step (c : Cfg) (l : Label) (h : EngineInv c) :
    EngineInv (step c l) := by
  obtain ⟨st, cn, sq, ct, up, sc, pcv, tr, res, pend⟩ := c
  cases l with
  | press =>
      cases st with
      | playing => intro _; exact h (Or.inl rfl)
      | paused => exact h
      | idle => exact h
      | complete => exact h
  | pause =>
      cases st with
      | playing => intro _; exact h (Or.inl rfl)
      | paused => exact h
      | idle => exact h
      | complete => exact h
  | resume =>
      cases st with
      | paused => intro _; exact h (Or.inr rfl)
      | playing => exact h
      | idle => exact h
      | complete => exact h
  | stop =>
      intro h'
      rcases h' with h' | h' <;> simp [step] at h'
  | tick =>
      cases pcv with
      | window t =>
          cases st with
          | playing => intro _; exact ⟨⟨t, Or.inr (Or.inl rfl)⟩, (h (Or.inl rfl)).2⟩
          | paused => intro _; exact ⟨⟨t, Or.inr (Or.inl rfl)⟩, (h (Or.inr rfl)).2⟩
          | idle =>
              intro h'
              rcases h' with h' | h' <;>
                simp [step, engineTick, TIMING_ISI, TIMING_RESPONSE_WINDOW] at h'
          | complete =>
              intro h'
              rcases h' with h' | h' <;>
                simp [step, engineTick, TIMING_ISI, TIMING_RESPONSE_WINDOW] at h'
      | isi t =>
          cases st with
          | playing =>
              by_cases hb : t + 1 < sq.totalTrials
              · have he : step (⟨EngState.playing, cn, sq, ct, up, sc,
                    EnginePC.isi t, tr, res, pend⟩ : Cfg) Label.tick =
                    startTrial ⟨EngState.playing, cn, sq, t+1, up, sc,
                      EnginePC.isi t, tr, res, pend⟩ (t+1) := by
                  show loopEnter _ (t+1) = _
                  rw [loopEnter, if_pos hb]
                  try rfl
                rw [he]
                intro _
                exact ⟨⟨t+1, Or.inl rfl⟩, (h (Or.inl rfl)).2⟩
              · have he : step (⟨EngState.playing, cn, sq, ct, up, sc,
                    EnginePC.isi t, tr, res, pend⟩ : Cfg) Label.tick =
                    epilogue ⟨EngState.playing, cn, sq, t+1, up, sc,
                      EnginePC.isi t, tr, res, pend⟩ := by
                  show loopEnter _ (t+1) = _
                  rw [loopEnter, if_neg hb]
                  try rfl
                rw [he]
                intro h'
                rcases h' with h' | h' <;>
                  (rw [epilogue_state _ (by simp)] at h'; cases h')
          | paused =>
              by_cases hb : t + 1 < sq.totalTrials
              · have he : step (⟨EngState.paused, cn, sq, ct, up, sc,
                    EnginePC.isi t, tr, res, pend⟩ : Cfg) Label.tick =
                    ⟨EngState.paused, cn, sq, t+1, up, sc,
                      EnginePC.pauseWait (t+1), tr, res, pend⟩ := by
                  show loopEnter _ (t+1) = _
                  rw [loopEnter, if_pos hb]
                  try rfl
                rw [he]
                intro _
                exact ⟨⟨t+1, Or.inr (Or.inr rfl)⟩, (h (Or.inr rfl)).2⟩
              · have he : step (⟨EngState.paused, cn, sq, ct, up, sc,
                    EnginePC.isi t, tr, res, pend⟩ : Cfg) Label.tick =
                    epilogue ⟨EngState.paused, cn, sq, t+1, up, sc,
                      EnginePC.isi t, tr, res, pend⟩ := by
                  show loopEnter _ (t+1) = _
                  rw [loopEnter, if_neg hb]
                  try rfl
                rw [he]
                intro h'
                rcases h' with h' | h' <;>
                  (rw [epilogue_state _ (by simp)] at h'; cases h')
          | idle =>
              by_cases hb : t + 1 < sq.totalTrials
              · have he : step (⟨EngState.idle, cn, sq, ct, up, sc,
                    EnginePC.isi t, tr, res, pend⟩ : Cfg) Label.tick =
                    epilogue ⟨EngState.idle, cn, sq, t+1, up, sc,
                      EnginePC.isi t, tr, res, pend⟩ := by
                  show loopEnter _ (t+1) = _
                  rw [loopEnter, if_pos hb]
                  try rfl
                rw [he, epilogue_idle _ rfl]
                intro h'
                rcases h' with h' | h' <;> simp at h'
              · have he : step (⟨EngState.idle, cn, sq, ct, up, sc,
                    EnginePC.isi t, tr, res, pend⟩ : Cfg) Label.tick =
                    epilogue ⟨EngState.idle, cn, sq, t+1, up, sc,
                      EnginePC.isi t, tr, res, pend⟩ := by
                  show loopEnter _ (t+1) = _
                  rw [loopEnter, if_neg hb]
                  try rfl
                rw [he, epilogue_idle _ rfl]
                intro h'
                rcases h' with h' | h' <;> simp at h'
          | complete =>
              by_cases hb : t + 1 < sq.totalTrials
              · have he : step (⟨EngState.complete, cn, sq, ct, up, sc,
                    EnginePC.isi t, tr, res, pend⟩ : Cfg) Label.tick =
                    startTrial ⟨EngState.complete, cn, sq, t+1, up, sc,
                      EnginePC.isi t, tr, res, pend⟩ (t+1) := by
                  show loopEnter _ (t+1) = _
                  rw [loopEnter, if_pos hb]
                  try rfl
                rw [he]
                intro h'
                rcases h' with h' | h' <;> simp [startTrial] at h'
              · have he : step (⟨EngState.complete, cn, sq, ct, up, sc,
                    EnginePC.isi t, tr, res, pend⟩ : Cfg) Label.tick =
                    epilogue ⟨EngState.complete, cn, sq, t+1, up, sc,
                      EnginePC.isi t, tr, res, pend⟩ := by
                  show loopEnter _ (t+1) = _
                  rw [loopEnter, if_neg hb]
                  try rfl
                rw [he]
                intro h'
                rcases h' with h' | h' <;>
                  (rw [epilogue_state _ (by simp)] at h'; cases h')
      | pauseWait t =>
          cases st with
          | paused => exact h
          | playing => intro _; exact ⟨⟨t, Or.inl rfl⟩, (h (Or.inl rfl)).2⟩
          | idle =>
              intro h'
              rcases h' with h' | h' <;> simp [step, engineTick, epilogue] at h'
          | complete =>
              intro h'
              rcases h' with h' | h' <;>
                simp [step, engineTick, startTrial] at h'
      | preLevelUp =>
          cases pend with
          | none => exact h
          | some rl =>
              cases st with
              | playing =>
                  obtain ⟨t0, ht⟩ := (h (Or.inl rfl)).1
                  rcases ht with ht | ht | ht <;> cases ht
              | paused =>
                  obtain ⟨t0, ht⟩ := (h (Or.inr rfl)).1
                  rcases ht with ht | ht | ht <;> cases ht
              | idle =>
                  intro h'
                  rcases h' with h' | h' <;> simp [step, engineTick] at h'
              | complete =>
                  intro h'
                  rcases h' with h' | h' <;> simp [step, engineTick] at h'
      | done => exact h

/-- The invariant holds right after the synchronous prefix of `startBlock`. -/
theorem engineInv_startBlockInit (n : Nat) (seq : JSSequence) :
    EngineInv (startBlockInit n seq) := by
  by_cases hb : 0 < seq.totalTrials
  · have he : startBlockInit n seq =
        startTrial ⟨EngState.playing, n, seq, 0, false, scorerZero,
          EnginePC.window 0, [Ev.blockStart n seq.totalTrials], none, none⟩ 0 := by
      show loopEnter _ 0 = _
      rw [loopEnter, if_pos hb]
      try rfl
    rw [he]
    intro _
    exact ⟨⟨0, Or.inl rfl⟩, rfl⟩
  · have he : startBlockInit n seq =
        epilogue ⟨EngState.playing, n, seq, 0, false, scorerZero,
          EnginePC.window 0, [Ev.blockStart n seq.totalTrials], none, none⟩ := by
      show loopEnter _ 0 = _
      rw [loopEnter, if_neg hb]
      try rfl
    rw [he]
    intro h'
    rcases h' with h' | h' <;> (rw [epilogue_state _ (by simp)] at h'; cases h')

/-- Any run preserves the engine invariant. -/
theorem engineInv_run (c : Cfg) (s : List Label) (h : EngineInv c) :
    EngineInv (run c s) := by
  induction s generalizing c with
  | nil => exact h
  | cons l ls ih =>
      rw [run_cons]
      exact ih (step c l) (engineInv_step c l h)

/-- Delivering `stop` at any loop suspension point while the promise is
pending aborts the block: within the in-progress trial's remaining timers
the promise resolves with `null`, the state is `idle`, and no
`blockComplete` and no further `trialStart` is emitted. -/
theorem stop_aborts_of_inv (c : Cfg) (hInv : EngineInv c)
    (hst : c.state = EngState.playing ∨ c.state = EngState.paused) :
    StopAborts c := by
  obtain ⟨⟨t, hpc⟩, hres⟩ := hInv hst
  obtain ⟨st, cn, sq, ct, up, sc, pcv, tr, res, pend⟩ := c
  simp only at hpc hres
  subst hres
  rcases hpc with hw | hi | hp
  · subst hw
    have h3 : step (⟨EngState.idle, cn, sq, ct, up,
        sc.recordTrial up (sq.matchPositions.contains t), EnginePC.isi t,
        (tr ++ [Ev.stopped]) ++ [Ev.trialEnd t up (sq.matchPositions.contains t)
          (corrFlag up (sq.matchPositions.contains t))], none, pend⟩ : Cfg)
        Label.tick =
        ⟨EngState.idle, cn, sq, t+1, up,
          sc.recordTrial up (sq.matchPositions.contains t), EnginePC.done,
          (tr ++ [Ev.stopped]) ++ [Ev.trialEnd t up (sq.matchPositions.contains t)
            (corrFlag up (sq.matchPositions.contains t))], some none, pend⟩ := by
      show loopEnter _ (t+1) = _
      by_cases hb : t + 1 < sq.totalTrials
      · rw [loopEnter, if_pos hb]
        try rfl
      · rw [loopEnter, if_neg hb]
        try rfl
    have hrun : run (⟨st, cn, sq, ct, up, sc, EnginePC.window t, tr, none,
        pend⟩ : Cfg) [Label.stop, Label.tick, Label.tick] =
        ⟨EngState.idle, cn, sq, t+1, up,
          sc.recordTrial up (sq.matchPositions.contains t), EnginePC.done,
          (tr ++ [Ev.stopped]) ++ [Ev.trialEnd t up (sq.matchPositions.contains t)
            (corrFlag up (sq.matchPositions.contains t))], some none, pend⟩ := h3
    refine ⟨?_, ?_, [Ev.stopped, Ev.trialEnd t up (sq.matchPositions.contains t)
      (corrFlag up (sq.matchPositions.contains t))], ?_, ?_⟩
    · rw [hrun]
    · rw [hrun]
    · rw [hrun]
      simp
    · intro e he
      have he' : e = Ev.stopped ∨ e = Ev.trialEnd t up (sq.matchPositions.contains t)
          (corrFlag up (sq.matchPositions.contains t)) := by simpa using he
      rcases he' with he' | he' <;> subst he' <;> exact ⟨rfl, rfl⟩
  · subst hi
    have h2 : step (⟨EngState.idle, cn, sq, ct, up, sc, EnginePC.isi t,
        tr ++ [Ev.stopped], none, pend⟩ : Cfg) Label.tick =
        ⟨EngState.idle, cn, sq, t+1, up, sc, EnginePC.done,
          tr ++ [Ev.stopped], some none, pend⟩ := by
      show loopEnter _ (t+1) = _
      by_cases hb : t + 1 < sq.totalTrials
      · rw [loopEnter, if_pos hb]
        try rfl
      · rw [loopEnter, if_neg hb]
        try rfl
    have hrun : run (⟨st, cn, sq, ct, up, sc, EnginePC.isi t, tr, none,
        pend⟩ : Cfg) [Label.stop, Label.tick, Label.tick] =
        ⟨EngState.idle, cn, sq, t+1, up, sc, EnginePC.done,
          tr ++ [Ev.stopped], some none, pend⟩ := by
      show step (step (⟨EngState.idle, cn, sq, ct, up, sc, EnginePC.isi t,
        tr ++ [Ev.stopped], none, pend⟩ : Cfg) Label.tick) Label.tick = _
      rw [h2]
      rfl
    refine ⟨?_, ?_, [Ev.stopped], ?_, ?_⟩
    · rw [hrun]
    · rw [hrun]
    · rw [hrun]
    · intro e he
      have he' : e = Ev.stopped := by simpa using he
      subst he'
      exact ⟨rfl, rfl⟩
  · subst hp
    have hrun : run (⟨st, cn, sq, ct, up, sc, EnginePC.pauseWait t, tr, none,
        pend⟩ : Cfg) [Label.stop, Label.tick, Label.tick] =
        ⟨EngState.idle, cn, sq, ct, up, sc, EnginePC.done,
          tr ++ [Ev.stopped], some none, pend⟩ := rfl
    refine ⟨?_, ?_, [Ev.stopped], ?_, ?_⟩
    · rw [hrun]
    · rw [hrun]
    · rw [hrun]
    · intro e he
      have he' : e = Ev.stopped := by simpa using he
      subst he'
      exact ⟨rfl, rfl⟩

/-- C6: if `stop()` is delivered while the engine state is `playing` or
`paused` in any reachable configuration of a started block, the in-progress
`startBlock` call resolves with no block result (`null`), no `blockComplete`
notification and no further `trialStart` is emitted after the stop, and the
engine state is `idle` afterwards. -/
theorem stop_while_running_aborts (n : Nat) (seq : JSSequence) (s : List Label)
    (hst : (run (startBlockInit n seq) s).state = EngState.playing ∨
           (run (startBlockInit n seq) s).state = EngState.paused) :
    StopAborts (run (startBlockInit n seq) s) :=
  stop_aborts_of_inv _ (engineInv_run _ s (engineInv_startBlockInit n seq)) hst

/-- Witness for `stop_while_running_aborts`: stopping a just-started block
(the engine is `playing`, parked at trial 0's response window). -/
theorem stop_while_running_aborts_witness :
    StopAborts (run (startBlockInit 2 seqA) []) :=
  stop_while_running_aborts 2 seqA [] (Or.inl rfl)

/-- C7: `pause()` in any state other than `playing`, and `resume()` in any
state other than `paused`, leave the configuration unchanged — same state,
no notification emitted, never an error (the handlers are total). -/
theorem pause_resume_noop (c : Cfg) :
    (c.state ≠ EngState.playing → step c Label.pause = c) ∧
    (c.state ≠ EngState.paused → step c Label.resume = c) := by
  constructor
  · intro h
    show (if c.state = EngState.playing then
      { c with state := EngState.paused, trace := c.trace ++ [Ev.paused] }
      else c) = c
    rw [if_neg h]
  · intro h
    show (if c.state = EngState.paused then
      { c with state := EngState.playing, trace := c.trace ++ [Ev.resumed] }
      else c) = c
    rw [if_neg h]

/-- Witness for `pause_resume_noop` at a concrete idle configuration. -/
theorem pause_resume_noop_witness :
    step cfgIdle Label.pause = cfgIdle ∧ step cfgIdle Label.resume = cfgIdle :=
  ⟨(pause_resume_noop cfgIdle).1 (by decide),
   (pause_resume_noop cfgIdle).2 (by decide)⟩

/-- C10: a press delivered while the engine state is not `playing` never
sets the latched `userPressed` flag — the handler leaves the configuration
unchanged; concretely, pausing during trial 0's response window, pressing
while paused, resuming and letting the window elapse scores the trial with
`userPressed = false` (the `trialEnd` event carries `userPressed = false`). -/
theorem press_ignored_when_not_playing :
    (∀ c : Cfg, c.state ≠ EngState.playing → step c Label.press = c) ∧
    ((run (startBlockInit 1 seqA)
        [Label.pause, Label.press, Label.resume, Label.tick]).trace =
      [Ev.blockStart 1 2, Ev.trialStart 0 2 false, Ev.paused, Ev.resumed,
        Ev.trialEnd 0 false false true]) := by
  constructor
  · intro c h
    show (if c.state = EngState.playing then { c with userPressed := true }
      else c) = c
    rw [if_neg h]
  · decide

/-- Witness for `press_ignored_when_not_playing` at a concrete paused
configuration. -/
theorem press_ignored_when_not_playing_witness :
    step cfgPaused Label.press = cfgPaused :=
  press_ignored_when_not_playing.1 cfgPaused (by decide)

/-- Witness for `engine_full_block_trace`: its correctness-flag clause
applied to the first trial of a concrete block (a non-match trial with a
press, whose `trialEnd` carries `correct = false`). -/
theorem engine_full_block_trace_witness :
    false = corrFlag true false := by
  apply (engine_full_block_trace 2 seqA (fun _ => true)).2.2.2.2.2.2 0 true false false
  rw [(engine_full_block_trace 2 seqA (fun _ => true)).1]
  apply List.mem_cons_of_mem
  apply List.mem_append_left
  decide
